import Mathlib

/-!
Verification development for the message framing and selective-dispatch
subsystem declared in common/msg.h of the luakit repository.

The header file fixes the message type catalog, the header record and the
public operations; the framing, queue and dispatch behaviour is modelled
from the specification, since only the declarations are part of the
sources given here.
-/

namespace LuakitMsg

/-- Message type catalog from common/msg.h, in X-macro declaration order:
lua_require_module, lua_msg, scroll, rc_loaded. -/
inductive msg_type_t where
  | lua_require_module
  | lua_msg
  | scroll
  | rc_loaded
deriving DecidableEq

/-- Declaration index of each catalog entry, mirroring the first enum
MSG_TYPE_EXPONENT_name generated by the X-macro (0, 1, 2, 3). -/
def msg_type_exponent : msg_type_t → Nat
  | .lua_require_module => 0
  | .lua_msg => 1
  | .scroll => 2
  | .rc_loaded => 3

/-- Value of each MSG_TYPE_name constant: 1 shifted left by the exponent,
as in the second X-macro expansion of common/msg.h. -/
def msg_type_value (u : msg_type_t) : Nat := 1 <<< msg_type_exponent u

/-- List of all catalog tag values, in declaration order. -/
def msg_type_values : List Nat :=
  [msg_type_value .lua_require_module, msg_type_value .lua_msg,
   msg_type_value .scroll, msg_type_value .rc_loaded]

/-- Sentinel mask accepting every type, from the MSG_TYPE_ANY define. -/
def MSG_TYPE_ANY : Int := -1

/-- Fixed size header prepended to each message (common/msg.h): a guint
length followed by the type field. The type field is carried in the C int
representation, so it can hold any int value, including MSG_TYPE_ANY. -/
structure msg_header_t where
  length : Nat
  type : Int
deriving DecidableEq

/-- A complete frame: the wire value of its type tag plus payload bytes. -/
structure Frame where
  type : Nat
  payload : List Nat
deriving DecidableEq

/-- Little-endian 4-byte encoding of a 32-bit unsigned value. -/
def toLE4 (n : Nat) : List Nat :=
  [n % 256, n / 256 % 256, n / 65536 % 256, n / 16777216 % 256]

/-- Little-endian decoding of the first 4 bytes of a buffer. -/
def fromLE4 (bs : List Nat) : Nat :=
  bs.getD 0 0 + 256 * bs.getD 1 0 + 65536 * bs.getD 2 0 + 16777216 * bs.getD 3 0

/-- Wire image of the header type field: the int value reduced to its
32-bit two complement representation. -/
def typeWire (i : Int) : Nat := (i % 4294967296).toNat

/-- Modelled from the spec: policy upper bound on a plausible payload
length. The spec mandates that an upper bound be enforced at header
decode time but leaves the value to policy; 2^24 stands for it here. -/
def MSG_MAX_LENGTH : Nat := 16777216

/-- Modelled from the spec: header decode validation. A wire type value
is accepted only when it is nonzero, has a single bit set, and names a
catalog entry. -/
def validTypeB (v : Nat) : Bool :=
  v != 0 && (v &&& (v - 1)) == 0 && msg_type_values.contains v

/-- Result of one attempt to extract a frame from the accumulated bytes. -/
inductive ExtractStep where
  | need
  | bad
  | got (f : Frame) (rest : List Nat)
deriving DecidableEq

/-- Modelled from the spec: one step of the Frame Reader (common/msg.c is
not among the sources). If fewer than 8 bytes are buffered, more data is
needed; otherwise the header is decoded and validated, and the frame is
emitted once length payload bytes are present. -/
def tryExtract (buf : List Nat) : ExtractStep :=
  if buf.length < 8 then .need
  else if validTypeB (fromLE4 (buf.drop 4)) = true ∧ fromLE4 buf ≤ MSG_MAX_LENGTH then
    if buf.length < 8 + fromLE4 buf then .need
    else .got ⟨fromLE4 (buf.drop 4), (buf.drop 8).take (fromLE4 buf)⟩ (buf.drop (8 + fromLE4 buf))
  else .bad

/-- Frames extracted from a buffer, the unconsumed leftover bytes, and
whether decoding aborted on a corrupt header. -/
structure ExtractResult where
  frames : List Frame
  rest : List Nat
  corrupt : Bool
deriving DecidableEq

/-- Fuel-indexed frame extraction loop; the fuel only bounds recursion
depth and is immaterial once it reaches the buffer length. -/
def extractGo : Nat → List Nat → ExtractResult
  | 0, buf => ⟨[], buf, false⟩
  | fuel + 1, buf =>
    match tryExtract buf with
    | .need => ⟨[], buf, false⟩
    | .bad => ⟨[], buf, true⟩
    | .got f rest =>
      let r := extractGo fuel rest
      ⟨f :: r.frames, r.rest, r.corrupt⟩

/-- Modelled from the spec: extract every complete frame available in the
buffer, stopping at the first corrupt header or when bytes run short. -/
def extractAll (buf : List Nat) : ExtractResult := extractGo buf.length buf

/-- Wire layout written by msg_send (declared in common/msg.h, the write
path being a thin call): header bytes, length first then type, followed
by the payload bytes, with no padding. -/
def msg_send (h : msg_header_t) (payload : List Nat) : List Nat :=
  toLE4 h.length ++ toLE4 (typeWire h.type) ++ payload

/-- C mask test (type & mask) != 0, computed as the 32-bit int AND of the
two complement images, exactly as the int arithmetic of the header does. -/
def frameMatches (f : Frame) (mask : Int) : Bool :=
  f.type &&& typeWire mask != 0

/-- Modelled from the spec: take_first_matching of the Pending Queue
(common/msg.c is not among the sources). Scans from the front, removes
and returns the first frame whose type matches the mask, leaving the
frames before it in place. -/
def take_first_matching (q : List Frame) (mask : Int) : Option (Frame × List Frame) :=
  match q with
  | [] => none
  | f :: rest =>
    if frameMatches f mask then some (f, rest)
    else (take_first_matching rest mask).map (fun p => (p.1, f :: p.2))

/-- State of the receive side: the Pending Queue of deferred frames and
the bytes currently available to the Frame Reader. -/
structure DState where
  queue : List Frame
  buf : List Nat
deriving DecidableEq

/-- Outcome of one dispatch call: a frame delivered synchronously to the
handler for its exact type, nothing consumed, or a corrupt header
surfaced to the caller. -/
inductive DResult where
  | consumed (f : Frame)
  | notConsumed
  | corrupted
deriving DecidableEq

/-- Modelled from the spec: msg_recv_and_dispatch_or_enqueue (declared in
common/msg.h; common/msg.c is not among the sources). A queued matching
frame is delivered first; otherwise at most one new frame is read
without blocking, delivered when it matches and enqueued when not. -/
def msg_recv_and_dispatch_or_enqueue (s : DState) (mask : Int) : DResult × DState :=
  match take_first_matching s.queue mask with
  | some p => (.consumed p.1, ⟨p.2, s.buf⟩)
  | none =>
    match tryExtract s.buf with
    | .need => (.notConsumed, s)
    | .bad => (.corrupted, s)
    | .got f rest =>
      if frameMatches f mask then (.consumed f, ⟨s.queue, rest⟩)
      else (.notConsumed, ⟨s.queue ++ [f], rest⟩)

/-- Sequence of frames delivered to handlers over a run of dispatch
calls, one interest mask per call, stopping if corruption is surfaced. -/
def runDispatch : DState → List Int → List Frame × DState
  | s, [] => ([], s)
  | s, m :: ms =>
    match msg_recv_and_dispatch_or_enqueue s m with
    | (.consumed f, s2) =>
      let p := runDispatch s2 ms
      (f :: p.1, p.2)
    | (.corrupted, s2) => ([], s2)
    | (_, s2) => runDispatch s2 ms

/-- Frames of one wire type still inside the system, in arrival order:
queued frames first (they arrived earlier), then the complete frames
sitting unread in the byte buffer. -/
def arrivalOfType (t : Nat) (s : DState) : List Frame :=
  (s.queue ++ (extractAll s.buf).frames).filter (fun f => f.type == t)

/-- Frames of one wire type delivered by a single dispatch outcome. -/
def deliveredOfType (t : Nat) : DResult → List Frame
  | .consumed f => if f.type == t then [f] else []
  | _ => []

/-- Modelled from the spec: feeding the reader chunk by chunk, extracting
after every chunk and stopping at the first corrupt header. -/
def feedAll : List Nat → List (List Nat) → ExtractResult
  | buf, [] => ⟨[], buf, false⟩
  | buf, c :: cs =>
    let r := extractAll (buf ++ c)
    if r.corrupt then r
    else
      let r2 := feedAll r.rest cs
      ⟨r.frames ++ r2.frames, r2.rest, r2.corrupt⟩

/-- Signal reported when the stream closes. -/
inductive CloseResult where
  | cleanEof
  | truncated
deriving DecidableEq

/-- Modelled from the spec: closure with no partial frame pending is a
clean end of stream; closure with buffered partial header or payload
bytes is reported as mid-frame truncation. -/
def onClose (pending : List Nat) : CloseResult :=
  if pending = [] then .cleanEof else .truncated

/-- Decomposition of a buffer holding at least a full header. -/
theorem exists_cons8 {b : List Nat} (h : 8 ≤ b.length) :
    ∃ x0 x1 x2 x3 x4 x5 x6 x7 l,
      b = x0 :: x1 :: x2 :: x3 :: x4 :: x5 :: x6 :: x7 :: l := by
  match b with
  | x0 :: x1 :: x2 :: x3 :: x4 :: x5 :: x6 :: x7 :: l =>
    exact ⟨x0, x1, x2, x3, x4, x5, x6, x7, l, rfl⟩
  | [] | [_] | [_, _] | [_, _, _] | [_, _, _, _] | [_, _, _, _, _]
  | [_, _, _, _, _, _] | [_, _, _, _, _, _, _] => simp at h

theorem take_append_of_le {b c : List Nat} {n : Nat} (h : n ≤ b.length) :
    (b ++ c).take n = b.take n := by
  rw [List.take_append_eq_append_take, Nat.sub_eq_zero_of_le h, List.take_zero,
    List.append_nil]

theorem drop_append_of_le {b c : List Nat} {n : Nat} (h : n ≤ b.length) :
    (b ++ c).drop n = b.drop n ++ c := by
  rw [List.drop_append_eq_append_drop, Nat.sub_eq_zero_of_le h, List.drop_zero]

/-- A buffer shorter than a header always asks for more bytes. -/
theorem tryExtract_short {buf : List Nat} (h : buf.length < 8) :
    tryExtract buf = .need := by
  simp [tryExtract, h]

theorem tryExtract_nil : tryExtract [] = .need := rfl

/-- Characterisation of a successful extraction step. -/
theorem tryExtract_got_spec {buf : List Nat} {f : Frame} {rest : List Nat}
    (h : tryExtract buf = .got f rest) :
    8 ≤ buf.length ∧ validTypeB (fromLE4 (buf.drop 4)) = true ∧
    fromLE4 buf ≤ MSG_MAX_LENGTH ∧ 8 + fromLE4 buf ≤ buf.length ∧
    f = ⟨fromLE4 (buf.drop 4), (buf.drop 8).take (fromLE4 buf)⟩ ∧
    rest = buf.drop (8 + fromLE4 buf) := by
  unfold tryExtract at h
  split_ifs at h with h1 h2 h3 <;> cases h
  all_goals exact ⟨by omega, h2.1, h2.2, by omega, rfl, rfl⟩

/-- Characterisation of a corrupt extraction step. -/
theorem tryExtract_bad_spec {buf : List Nat} (h : tryExtract buf = .bad) :
    8 ≤ buf.length ∧
    ¬(validTypeB (fromLE4 (buf.drop 4)) = true ∧ fromLE4 buf ≤ MSG_MAX_LENGTH) := by
  unfold tryExtract at h
  split_ifs at h with h1 h2 h3 <;> cases h
  all_goals exact ⟨by omega, h2⟩

theorem tryExtract_got_length {buf : List Nat} {f : Frame} {rest : List Nat}
    (h : tryExtract buf = .got f rest) : rest.length < buf.length := by
  obtain ⟨h8, _, _, hle, _, hr⟩ := tryExtract_got_spec h
  subst hr
  simp only [List.length_drop]
  omega

/-- Dropping a header plus m more bytes from an 8-byte-headed buffer. -/
theorem drop8_add (m x0 x1 x2 x3 x4 x5 x6 x7 : Nat) (l : List Nat) :
    (x0 :: x1 :: x2 :: x3 :: x4 :: x5 :: x6 :: x7 :: l).drop (8 + m) = l.drop m := by
  rw [← List.drop_drop]
  rfl

/-- Appending more bytes does not change a successful extraction except
for the leftover, which carries the new bytes. -/
theorem tryExtract_got_append {b : List Nat} {f : Frame} {r : List Nat}
    (c : List Nat) (h : tryExtract b = .got f r) :
    tryExtract (b ++ c) = .got f (r ++ c) := by
  obtain ⟨h8, hv, hlen, hle, hf, hr⟩ := tryExtract_got_spec h
  obtain ⟨x0, x1, x2, x3, x4, x5, x6, x7, l, hb⟩ := exists_cons8 h8
  subst hb
  have hLl : fromLE4 (x0 :: x1 :: x2 :: x3 :: x4 :: x5 :: x6 :: x7 :: l) ≤ l.length := by
    simp at hle
    omega
  unfold tryExtract
  rw [if_neg (by simp only [List.length_append, List.length_cons]; omega)]
  have h4 : fromLE4 (((x0 :: x1 :: x2 :: x3 :: x4 :: x5 :: x6 :: x7 :: l) ++ c).drop 4)
      = fromLE4 ((x0 :: x1 :: x2 :: x3 :: x4 :: x5 :: x6 :: x7 :: l).drop 4) := rfl
  have h0 : fromLE4 ((x0 :: x1 :: x2 :: x3 :: x4 :: x5 :: x6 :: x7 :: l) ++ c)
      = fromLE4 (x0 :: x1 :: x2 :: x3 :: x4 :: x5 :: x6 :: x7 :: l) := rfl
  rw [h4, h0, if_pos ⟨hv, hlen⟩,
    if_neg (by simp only [List.length_append, List.length_cons] at hle ⊢; omega)]
  subst hf hr
  have hcons : (x0 :: x1 :: x2 :: x3 :: x4 :: x5 :: x6 :: x7 :: l) ++ c
      = x0 :: x1 :: x2 :: x3 :: x4 :: x5 :: x6 :: x7 :: (l ++ c) := rfl
  rw [hcons, drop8_add]
  have hpay8 : (x0 :: x1 :: x2 :: x3 :: x4 :: x5 :: x6 :: x7 :: (l ++ c)).drop 8 = l ++ c := rfl
  have hpay8b : (x0 :: x1 :: x2 :: x3 :: x4 :: x5 :: x6 :: x7 :: l).drop 8 = l := rfl
  rw [hpay8, take_append_of_le hLl, drop_append_of_le hLl, drop8_add, hpay8b]

/-- Appending more bytes cannot cure a corrupt header. -/
theorem tryExtract_bad_append {b : List Nat} (c : List Nat)
    (h : tryExtract b = .bad) : tryExtract (b ++ c) = .bad := by
  obtain ⟨h8, hbad⟩ := tryExtract_bad_spec h
  obtain ⟨x0, x1, x2, x3, x4, x5, x6, x7, l, hb⟩ := exists_cons8 h8
  subst hb
  unfold tryExtract
  rw [if_neg (by simp only [List.length_append, List.length_cons]; omega)]
  exact if_neg hbad

/-- Any fuel at least the buffer length computes the same extraction. -/
theorem extractGo_fuel : ∀ (f1 : Nat) (f2 : Nat) (buf : List Nat),
    buf.length ≤ f1 → buf.length ≤ f2 → extractGo f1 buf = extractGo f2 buf := by
  intro f1
  induction f1 with
  | zero =>
    intro f2 buf h1 h2
    have hb : buf = [] := List.length_eq_zero.mp (by omega)
    subst hb
    cases f2 with
    | zero => rfl
    | succ k => simp [extractGo, tryExtract_nil]
  | succ k1 ih =>
    intro f2 buf h1 h2
    cases f2 with
    | zero =>
      have hb : buf = [] := List.length_eq_zero.mp (by omega)
      subst hb
      simp [extractGo, tryExtract_nil]
    | succ k2 =>
      show extractGo (k1 + 1) buf = extractGo (k2 + 1) buf
      simp only [extractGo]
      cases hstep : tryExtract buf with
      | need => rfl
      | bad => rfl
      | got f rest =>
        have hlt := tryExtract_got_length hstep
        dsimp only
        rw [ih k2 rest (by omega) (by omega)]

theorem extractAll_nil : extractAll [] = ⟨[], [], false⟩ := rfl

/-- Unfolding extractAll when more bytes are needed. -/
theorem extractAll_need {buf : List Nat} (h : tryExtract buf = .need) :
    extractAll buf = ⟨[], buf, false⟩ := by
  unfold extractAll
  cases hl : buf.length with
  | zero => rfl
  | succ k => simp [extractGo, h]

/-- Unfolding extractAll at a corrupt header. -/
theorem extractAll_bad {buf : List Nat} (h : tryExtract buf = .bad) :
    extractAll buf = ⟨[], buf, true⟩ := by
  have h8 := (tryExtract_bad_spec h).1
  unfold extractAll
  cases hl : buf.length with
  | zero => omega
  | succ k => simp [extractGo, h]

/-- Unfolding extractAll at a successful step. -/
theorem extractAll_got {buf : List Nat} {f : Frame} {rest : List Nat}
    (h : tryExtract buf = .got f rest) :
    extractAll buf = ⟨f :: (extractAll rest).frames, (extractAll rest).rest,
      (extractAll rest).corrupt⟩ := by
  have h8 := (tryExtract_got_spec h).1
  have hlt := tryExtract_got_length h
  unfold extractAll
  cases hl : buf.length with
  | zero => omega
  | succ k =>
    simp only [extractGo, h]
    rw [extractGo_fuel k rest.length rest (by omega) (by omega)]

/-- Composition law of the Frame Reader: extracting from a buffer with
extra bytes appended first yields everything the shorter buffer yields,
then continues on the leftover joined with the extra bytes; a corrupt
buffer stays corrupt. -/
theorem extractAll_append_bounded : ∀ (n : Nat) (b c : List Nat), b.length ≤ n →
    extractAll (b ++ c) =
      (if (extractAll b).corrupt
       then ⟨(extractAll b).frames, (extractAll b).rest ++ c, true⟩
       else ⟨(extractAll b).frames ++ (extractAll ((extractAll b).rest ++ c)).frames,
             (extractAll ((extractAll b).rest ++ c)).rest,
             (extractAll ((extractAll b).rest ++ c)).corrupt⟩) := by
  intro n
  induction n with
  | zero =>
    intro b c hb
    have hb0 : b = [] := List.length_eq_zero.mp (by omega)
    subst hb0
    simp [extractAll_nil]
  | succ k ih =>
    intro b c hb
    cases hstep : tryExtract b with
    | need =>
      rw [extractAll_need hstep]
      simp
    | bad =>
      rw [extractAll_bad hstep, extractAll_bad (tryExtract_bad_append c hstep)]
      simp
    | got f rest =>
      have hlt := tryExtract_got_length hstep
      rw [extractAll_got hstep, extractAll_got (tryExtract_got_append c hstep)]
      rw [ih rest c (by omega)]
      cases hc : (extractAll rest).corrupt <;> simp

/-- Composition law of the Frame Reader, stated without the bound. -/
theorem extractAll_append (b c : List Nat) :
    extractAll (b ++ c) =
      (if (extractAll b).corrupt
       then ⟨(extractAll b).frames, (extractAll b).rest ++ c, true⟩
       else ⟨(extractAll b).frames ++ (extractAll ((extractAll b).rest ++ c)).frames,
             (extractAll ((extractAll b).rest ++ c)).rest,
             (extractAll ((extractAll b).rest ++ c)).corrupt⟩) :=
  extractAll_append_bounded b.length b c le_rfl

/-- After a run that did not hit corruption, the leftover bytes are an
incomplete frame: the reader is only waiting for more data. -/
theorem extractGo_rest_need : ∀ (n : Nat) (buf : List Nat), buf.length ≤ n →
    (extractGo n buf).corrupt = false → tryExtract (extractGo n buf).rest = .need := by
  intro n
  induction n with
  | zero =>
    intro buf h1 _
    have hb : buf = [] := List.length_eq_zero.mp (by omega)
    subst hb
    exact tryExtract_nil
  | succ k ih =>
    intro buf h1 hcor
    simp only [extractGo] at hcor ⊢
    cases hstep : tryExtract buf with
    | need => exact hstep
    | bad => rw [hstep] at hcor; cases hcor
    | got f rest =>
      rw [hstep] at hcor
      have hlt := tryExtract_got_length hstep
      dsimp only at hcor ⊢
      exact ih rest (by omega) hcor

theorem extractAll_rest_need {buf : List Nat}
    (h : (extractAll buf).corrupt = false) :
    tryExtract (extractAll buf).rest = .need :=
  extractGo_rest_need buf.length buf le_rfl h

/-- Chunked feeding agrees with single-shot extraction on the produced
frame sequence and on whether corruption was detected. -/
theorem feedAll_flatten : ∀ (cs : List (List Nat)) (buf : List Nat),
    tryExtract buf = .need →
    (feedAll buf cs).frames = (extractAll (buf ++ cs.flatten)).frames ∧
    (feedAll buf cs).corrupt = (extractAll (buf ++ cs.flatten)).corrupt := by
  intro cs
  induction cs with
  | nil =>
    intro buf h
    rw [List.flatten_nil, List.append_nil, extractAll_need h]
    exact ⟨rfl, rfl⟩
  | cons c cs ih =>
    intro buf h
    rw [List.flatten_cons, ← List.append_assoc, extractAll_append (buf ++ c) cs.flatten]
    show ((feedAll buf (c :: cs)).frames = _) ∧ ((feedAll buf (c :: cs)).corrupt = _)
    simp only [feedAll]
    cases hc : (extractAll (buf ++ c)).corrupt with
    | true => simp [hc]
    | false =>
      have hneed : tryExtract (extractAll (buf ++ c)).rest = .need :=
        extractAll_rest_need hc
      obtain ⟨hf, hcr⟩ := ih (extractAll (buf ++ c)).rest hneed
      simp [hc, hf, hcr]

/-- Little-endian round trip for 32-bit values at the head of a buffer. -/
theorem fromLE4_toLE4 (n : Nat) (l : List Nat) (h : n < 4294967296) :
    fromLE4 (toLE4 n ++ l) = n := by
  simp only [toLE4, fromLE4, List.cons_append, List.nil_append, List.getD_cons_zero,
    List.getD_cons_succ]
  omega

theorem drop4_toLE4 (n : Nat) (l : List Nat) : (toLE4 n ++ l).drop 4 = l := rfl

theorem drop8_toLE4 (n m : Nat) (l : List Nat) :
    (toLE4 n ++ (toLE4 m ++ l)).drop 8 = l := rfl

theorem length_toLE4 (n : Nat) : (toLE4 n).length = 4 := rfl

/-- Every catalog tag value passes header validation. -/
theorem validTypeB_value (u : msg_type_t) : validTypeB (msg_type_value u) = true := by
  cases u <;> decide

theorem msg_type_value_lt (u : msg_type_t) : msg_type_value u < 4294967296 := by
  cases u <;> decide

/-- Extraction of one frame laid out in the wire format of msg_send. -/
theorem tryExtract_encode (L v : Nat) (payload : List Nat)
    (hL : L = payload.length) (hmax : L ≤ MSG_MAX_LENGTH)
    (hv : validTypeB v = true) (hv32 : v < 4294967296) :
    tryExtract (toLE4 L ++ (toLE4 v ++ payload)) = .got ⟨v, payload⟩ [] := by
  have hL32 : L < 4294967296 := by
    have : MSG_MAX_LENGTH < 4294967296 := by decide
    omega
  have hlen : (toLE4 L ++ (toLE4 v ++ payload)).length = 8 + payload.length := by
    simp [length_toLE4]
    omega
  unfold tryExtract
  rw [if_neg (by omega), drop4_toLE4, fromLE4_toLE4 v payload hv32,
    fromLE4_toLE4 L (toLE4 v ++ payload) hL32, if_pos ⟨hv, hmax⟩,
    if_neg (by omega), drop8_toLE4]
  subst hL
  rw [List.take_length, ← List.drop_drop, drop8_toLE4, List.drop_length]

/-- A failed queue scan means no queued frame matches the mask. -/
theorem take_first_matching_none {q : List Frame} {mask : Int} :
    take_first_matching q mask = none ↔ ∀ f ∈ q, frameMatches f mask = false := by
  induction q with
  | nil => simp [take_first_matching]
  | cons f rest ih =>
    cases hm : frameMatches f mask with
    | true => simp [take_first_matching, hm]
    | false => simp [take_first_matching, hm, Option.map_eq_none', ih]

/-- A successful queue scan returns the first matching frame: everything
before it in the queue does not match and is kept in order. -/
theorem take_first_matching_some {q : List Frame} {mask : Int} {g : Frame}
    {q2 : List Frame} (h : take_first_matching q mask = some (g, q2)) :
    frameMatches g mask = true ∧
    ∃ pre post, q = pre ++ g :: post ∧ (∀ f ∈ pre, frameMatches f mask = false) ∧
      q2 = pre ++ post := by
  induction q generalizing q2 with
  | nil => cases h
  | cons f rest ih =>
    simp only [take_first_matching] at h
    cases hm : frameMatches f mask with
    | true =>
      rw [if_pos (by simp [hm])] at h
      injection h with h2
      injection h2 with hg hq
      subst hg hq
      exact ⟨hm, [], rest, rfl, by simp, rfl⟩
    | false =>
      rw [if_neg (by simp [hm])] at h
      cases htake : take_first_matching rest mask with
      | none => rw [htake] at h; cases h
      | some p =>
        rw [htake] at h
        injection h with h2
        obtain ⟨p1, p2⟩ := p
        injection h2 with hg hq
        subst hg hq
        obtain ⟨hmatch, pre, post, hq, hpre, hq2⟩ := ih htake
        refine ⟨hmatch, f :: pre, post, by simp [hq], ?_, by simp [hq2]⟩
        intro x hx
        rcases List.mem_cons.mp hx with hxf | hxp
        · rw [hxf]; exact hm
        · exact hpre x hxp

/-- Matching depends only on the frame type. -/
theorem frameMatches_of_type_eq {f g : Frame} {mask : Int} (h : f.type = g.type) :
    frameMatches f mask = frameMatches g mask := by
  unfold frameMatches
  rw [h]

/-- Removing the first matching frame of the same type as t removes the
first type-t frame from the per-type arrival order. -/
theorem take_first_matching_filter_cons {q : List Frame} {mask : Int} {g : Frame}
    {q2 : List Frame} {t : Nat} (h : take_first_matching q mask = some (g, q2))
    (ht : g.type = t) :
    q.filter (fun f => f.type == t) = g :: q2.filter (fun f => f.type == t) := by
  obtain ⟨hmatch, pre, post, hq, hpre, hq2⟩ := take_first_matching_some h
  subst hq hq2
  have hprenil : pre.filter (fun f => f.type == t) = [] := by
    rw [List.filter_eq_nil_iff]
    intro f hf
    simp only [beq_iff_eq]
    intro hft
    have : frameMatches f mask = frameMatches g mask :=
      frameMatches_of_type_eq (by rw [hft, ht])
    rw [hpre f hf] at this
    rw [hmatch] at this
    cases this
  simp [List.filter_append, hprenil, List.filter_cons, ht]

/-- Removing a first matching frame of another type leaves the per-type
arrival order unchanged. -/
theorem take_first_matching_filter_ne {q : List Frame} {mask : Int} {g : Frame}
    {q2 : List Frame} {t : Nat} (h : take_first_matching q mask = some (g, q2))
    (ht : ¬ g.type = t) :
    q.filter (fun f => f.type == t) = q2.filter (fun f => f.type == t) := by
  obtain ⟨hmatch, pre, post, hq, hpre, hq2⟩ := take_first_matching_some h
  subst hq hq2
  simp [List.filter_append, List.filter_cons, ht]

/-- One dispatch call preserves per-type arrival order: the type-t frames
it delivers are exactly what it removes from the front of the type-t
arrival sequence. -/
theorem dispatch_step_arrival (s : DState) (mask : Int) (t : Nat) :
    arrivalOfType t s =
      deliveredOfType t (msg_recv_and_dispatch_or_enqueue s mask).1 ++
      arrivalOfType t (msg_recv_and_dispatch_or_enqueue s mask).2 := by
  unfold msg_recv_and_dispatch_or_enqueue
  cases htake : take_first_matching s.queue mask with
  | some p =>
    obtain ⟨g, q2⟩ := p
    dsimp only [deliveredOfType, arrivalOfType]
    by_cases hgt : g.type = t
    · rw [if_pos (by simp [hgt])]
      simp only [List.filter_append]
      rw [take_first_matching_filter_cons htake hgt]
      simp
    · rw [if_neg (by simp [hgt])]
      simp only [List.filter_append, List.nil_append]
      rw [take_first_matching_filter_ne htake hgt]
  | none =>
    cases hext : tryExtract s.buf with
    | need => simp [deliveredOfType]
    | bad => simp [deliveredOfType]
    | got f rest =>
      dsimp only
      by_cases hfm : frameMatches f mask = true
      · rw [if_pos hfm]
        dsimp only [deliveredOfType, arrivalOfType]
        rw [extractAll_got hext]
        simp only [List.filter_append]
        by_cases hft : f.type = t
        · have hqnil : s.queue.filter (fun x => x.type == t) = [] := by
            rw [List.filter_eq_nil_iff]
            intro x hx
            simp only [beq_iff_eq]
            intro hxt
            have heq : frameMatches x mask = frameMatches f mask :=
              frameMatches_of_type_eq (by rw [hxt, hft])
            rw [take_first_matching_none.mp htake x hx, hfm] at heq
            cases heq
          rw [hqnil]
          simp [List.filter_cons, hft]
        · simp [List.filter_cons, hft]
      · rw [if_neg hfm]
        dsimp only [deliveredOfType, arrivalOfType]
        rw [extractAll_got hext]
        simp [List.filter_append, List.filter_cons]

/-- Per-type arrival order over a whole run: the type-t frames delivered
across any sequence of dispatch calls, in delivery order, followed by the
type-t frames still in the system, equal the original type-t arrivals. -/
theorem runDispatch_arrival (t : Nat) : ∀ (ms : List Int) (s : DState),
    arrivalOfType t s =
      (runDispatch s ms).1.filter (fun f => f.type == t) ++
      arrivalOfType t (runDispatch s ms).2 := by
  intro ms
  induction ms with
  | nil =>
    intro s
    simp [runDispatch]
  | cons m ms ih =>
    intro s
    have hstep := dispatch_step_arrival s m t
    simp only [runDispatch]
    cases hcall : msg_recv_and_dispatch_or_enqueue s m with
    | mk r s2 =>
      rw [hcall] at hstep
      cases r with
      | consumed f =>
        dsimp only [deliveredOfType] at hstep ⊢
        rw [hstep, ih s2, List.filter_cons]
        cases hb : (f.type == t) <;> simp [hb]
      | notConsumed =>
        dsimp only [deliveredOfType] at hstep ⊢
        rw [List.nil_append] at hstep
        rw [hstep]
        exact ih s2
      | corrupted =>
        dsimp only [deliveredOfType] at hstep ⊢
        rw [List.nil_append] at hstep
        simpa using hstep

/-- Any valid wire type value is one of the four catalog values. -/
theorem validTypeB_false_of (v : Nat)
    (h : v = 0 ∨ v &&& (v - 1) ≠ 0 ∨ (∀ u : msg_type_t, msg_type_value u ≠ v)) :
    validTypeB v = false := by
  cases hv : validTypeB v with
  | false => rfl
  | true =>
    exfalso
    unfold validTypeB at hv
    rw [Bool.and_eq_true, Bool.and_eq_true] at hv
    obtain ⟨⟨hne, hbit⟩, hmem⟩ := hv
    rcases h with h0 | hb | hc
    · rw [h0] at hne; cases hne
    · rw [beq_iff_eq] at hbit; exact hb hbit
    · have hvals : msg_type_values = [1, 2, 4, 8] := by decide
      rw [hvals] at hmem
      simp only [List.elem_eq_mem, List.contains] at hmem
      simp at hmem
      rcases hmem with h1 | h2 | h4 | h8
      · exact hc .lua_require_module (by rw [h1]; decide)
      · exact hc .lua_msg (by rw [h2]; decide)
      · exact hc .scroll (by rw [h4]; decide)
      · exact hc .rc_loaded (by rw [h8]; decide)

/-- C1: msg_recv_and_dispatch_or_enqueue returns consumed exactly when a
frame matching the mask is delivered to its handler during the call; a
matching queued frame is delivered in preference to reading; with no
queued match and no complete frame available it returns not consumed with
the state unchanged (no blocking); a newly read frame that does not match
is enqueued at the back and not consumed; a newly read matching frame is
delivered. -/
theorem C1_dispatch_contract (s : DState) (mask : Int) :
    (∀ f s2, msg_recv_and_dispatch_or_enqueue s mask = (.consumed f, s2) →
      frameMatches f mask = true) ∧
    (∀ g q2, take_first_matching s.queue mask = some (g, q2) →
      msg_recv_and_dispatch_or_enqueue s mask = (.consumed g, ⟨q2, s.buf⟩)) ∧
    (take_first_matching s.queue mask = none → tryExtract s.buf = .need →
      msg_recv_and_dispatch_or_enqueue s mask = (.notConsumed, s)) ∧
    (∀ f rest, take_first_matching s.queue mask = none →
      tryExtract s.buf = .got f rest → frameMatches f mask = false →
      msg_recv_and_dispatch_or_enqueue s mask = (.notConsumed, ⟨s.queue ++ [f], rest⟩)) ∧
    (∀ f rest, take_first_matching s.queue mask = none →
      tryExtract s.buf = .got f rest → frameMatches f mask = true →
      msg_recv_and_dispatch_or_enqueue s mask = (.consumed f, ⟨s.queue, rest⟩)) := by
  refine ⟨?_, ?_, ?_, ?_, ?_⟩
  · intro f s2 hcall
    unfold msg_recv_and_dispatch_or_enqueue at hcall
    cases htake : take_first_matching s.queue mask with
    | some p =>
      rw [htake] at hcall
      dsimp only at hcall
      injection hcall with h1 h2
      injection h1 with hf
      obtain ⟨g, q2⟩ := p
      rw [← hf]
      exact (take_first_matching_some htake).1
    | none =>
      rw [htake] at hcall
      cases hext : tryExtract s.buf with
      | need =>
        rw [hext] at hcall
        injection hcall with h1 h2
        cases h1
      | bad =>
        rw [hext] at hcall
        injection hcall with h1 h2
        cases h1
      | got f0 rest =>
        rw [hext] at hcall
        dsimp only at hcall
        by_cases hm : frameMatches f0 mask = true
        · rw [if_pos hm] at hcall
          injection hcall with h1 h2
          injection h1 with hf
          rw [← hf]
          exact hm
        · rw [if_neg hm] at hcall
          injection hcall with h1 h2
          cases h1
  · intro g q2 htake
    unfold msg_recv_and_dispatch_or_enqueue
    rw [htake]
  · intro htake hext
    unfold msg_recv_and_dispatch_or_enqueue
    rw [htake, hext]
  · intro f rest htake hext hm
    unfold msg_recv_and_dispatch_or_enqueue
    rw [htake, hext]
    dsimp only
    rw [if_neg (by rw [hm]; exact Bool.false_ne_true)]
  · intro f rest htake hext hm
    unfold msg_recv_and_dispatch_or_enqueue
    rw [htake, hext]
    dsimp only
    rw [if_pos hm]

/-- Witness for C1: a queued matching frame is consumed; an empty system
is not consumed and unchanged; a read non-matching frame is enqueued; a
read matching frame is consumed. -/
theorem C1_dispatch_contract_witness :
    frameMatches ⟨2, []⟩ 2 = true ∧
    msg_recv_and_dispatch_or_enqueue ⟨[⟨2, []⟩], []⟩ 2 = (.consumed ⟨2, []⟩, ⟨[], []⟩) ∧
    msg_recv_and_dispatch_or_enqueue ⟨[], []⟩ 1 = (.notConsumed, ⟨[], []⟩) ∧
    msg_recv_and_dispatch_or_enqueue ⟨[], msg_send ⟨0, 1⟩ []⟩ 2 =
      (.notConsumed, ⟨[⟨1, []⟩], []⟩) ∧
    msg_recv_and_dispatch_or_enqueue ⟨[], msg_send ⟨0, 1⟩ []⟩ 1 =
      (.consumed ⟨1, []⟩, ⟨[], []⟩) :=
  ⟨(C1_dispatch_contract ⟨[⟨2, []⟩], []⟩ 2).1 ⟨2, []⟩ ⟨[], []⟩ (by decide),
   (C1_dispatch_contract ⟨[⟨2, []⟩], []⟩ 2).2.1 ⟨2, []⟩ [] (by decide),
   (C1_dispatch_contract ⟨[], []⟩ 1).2.2.1 (by decide) (by decide),
   (C1_dispatch_contract ⟨[], msg_send ⟨0, 1⟩ []⟩ 2).2.2.2.1 ⟨1, []⟩ []
     (by decide) (by decide) (by decide),
   (C1_dispatch_contract ⟨[], msg_send ⟨0, 1⟩ []⟩ 1).2.2.2.2 ⟨1, []⟩ []
     (by decide) (by decide) (by decide)⟩

/-- C2: take_first_matching scans from the front: it returns none exactly
when no queued frame matches, and otherwise removes and returns the first
matching frame, leaving the non-matching frames before it in place and in
their original relative order. -/
theorem C2_take_first_matching_spec (q : List Frame) (mask : Int) :
    (take_first_matching q mask = none ↔ ∀ f ∈ q, frameMatches f mask = false) ∧
    (∀ g q2, take_first_matching q mask = some (g, q2) →
      frameMatches g mask = true ∧
      ∃ pre post, q = pre ++ g :: post ∧
        (∀ f ∈ pre, frameMatches f mask = false) ∧ q2 = pre ++ post) :=
  ⟨take_first_matching_none, fun _ _ h => take_first_matching_some h⟩

/-- Witness for C2 on a two-frame queue whose second frame matches. -/
theorem C2_take_first_matching_witness :
    frameMatches ⟨1, []⟩ 1 = true ∧
    ∃ pre post, [⟨2, []⟩, ⟨1, []⟩] = pre ++ (⟨1, []⟩ : Frame) :: post ∧
      (∀ f ∈ pre, frameMatches f 1 = false) ∧ [⟨2, []⟩] = pre ++ post :=
  (C2_take_first_matching_spec [⟨2, []⟩, ⟨1, []⟩] 1).2 ⟨1, []⟩ [⟨2, []⟩] (by decide)

/-- C3: frames of one type are delivered in strict arrival order under
any sequence of dispatch calls: the type-t frames delivered by the run,
in delivery order, followed by the type-t frames still in the system,
are exactly the original type-t arrival sequence; in particular, of two
same-type frames the earlier arrival is always delivered first. -/
theorem C3_fifo_per_type (s : DState) (ms : List Int) (t : Nat) :
    arrivalOfType t s =
      (runDispatch s ms).1.filter (fun f => f.type == t) ++
      arrivalOfType t (runDispatch s ms).2 :=
  runDispatch_arrival t ms s

/-- C4: delivering the bytes in chunks of any sizes yields exactly the
frames of a single-shot delivery, detecting corruption identically:
partial bytes are retained across calls, never re-read or dropped. -/
theorem C4_chunking_invariance (chunks : List (List Nat)) :
    (feedAll [] chunks).frames = (extractAll chunks.flatten).frames ∧
    (feedAll [] chunks).corrupt = (extractAll chunks.flatten).corrupt := by
  have h := feedAll_flatten chunks [] tryExtract_nil
  simpa using h

/-- C5: a frame with a valid catalog type and payload of exactly
header.length bytes, encoded via the msg_send layout, decodes back to the
same type, length and payload bytes, with nothing left over. -/
theorem C5_roundtrip (t : msg_type_t) (hd : msg_header_t) (payload : List Nat)
    (hty : hd.type = (msg_type_value t : Int))
    (hlen : hd.length = payload.length)
    (hmax : payload.length ≤ MSG_MAX_LENGTH) :
    extractAll (msg_send hd payload) =
      ⟨[⟨msg_type_value t, payload⟩], [], false⟩ := by
  have hw : typeWire hd.type = msg_type_value t := by
    rw [hty]
    cases t <;> decide
  have hstep : tryExtract (msg_send hd payload) = .got ⟨msg_type_value t, payload⟩ [] := by
    unfold msg_send
    rw [hw, hlen]
    exact tryExtract_encode payload.length (msg_type_value t) payload rfl
      (by omega) (validTypeB_value t) (msg_type_value_lt t)
  rw [extractAll_got hstep, extractAll_nil]

/-- Witness for C5: the zero-length payload round trip. -/
theorem C5_roundtrip_witness :
    extractAll (msg_send ⟨0, (msg_type_value msg_type_t.scroll : Int)⟩ []) =
      ⟨[⟨msg_type_value msg_type_t.scroll, []⟩], [], false⟩ :=
  C5_roundtrip msg_type_t.scroll ⟨0, (msg_type_value msg_type_t.scroll : Int)⟩ []
    rfl rfl (by decide)

/-- C6: a header whose type field is zero, has more than one bit set, or
names no catalog entry, or whose length is implausibly large, is fatal:
no frame is delivered, the leftover bytes are not rescanned for a
plausible next header, and the dispatcher surfaces the corruption. -/
theorem C6_corrupt_header_fatal (buf : List Nat) (h8 : 8 ≤ buf.length)
    (hbad : fromLE4 (buf.drop 4) = 0 ∨
            fromLE4 (buf.drop 4) &&& (fromLE4 (buf.drop 4) - 1) ≠ 0 ∨
            (∀ u : msg_type_t, msg_type_value u ≠ fromLE4 (buf.drop 4)) ∨
            MSG_MAX_LENGTH < fromLE4 buf) :
    extractAll buf = ⟨[], buf, true⟩ ∧
    ∀ mask : Int, msg_recv_and_dispatch_or_enqueue ⟨[], buf⟩ mask =
      (.corrupted, ⟨[], buf⟩) := by
  have hcond : ¬(validTypeB (fromLE4 (buf.drop 4)) = true ∧
      fromLE4 buf ≤ MSG_MAX_LENGTH) := by
    rintro ⟨hv, hl⟩
    rcases hbad with h | h | h | h
    · rw [validTypeB_false_of _ (Or.inl h)] at hv; cases hv
    · rw [validTypeB_false_of _ (Or.inr (Or.inl h))] at hv; cases hv
    · rw [validTypeB_false_of _ (Or.inr (Or.inr h))] at hv; cases hv
    · omega
  have htry : tryExtract buf = .bad := by
    unfold tryExtract
    rw [if_neg (by omega), if_neg hcond]
  refine ⟨extractAll_bad htry, ?_⟩
  intro mask
  unfold msg_recv_and_dispatch_or_enqueue
  dsimp only [take_first_matching]
  rw [htry]

/-- Witness for C6: a header declaring type value 3 (two bits set) is
rejected without delivering a frame. -/
theorem C6_corrupt_header_witness :
    extractAll [0, 0, 0, 0, 3, 0, 0, 0] = ⟨[], [0, 0, 0, 0, 3, 0, 0, 0], true⟩ ∧
    msg_recv_and_dispatch_or_enqueue ⟨[], [0, 0, 0, 0, 3, 0, 0, 0]⟩ 1 =
      (.corrupted, ⟨[], [0, 0, 0, 0, 3, 0, 0, 0]⟩) :=
  have h := C6_corrupt_header_fatal [0, 0, 0, 0, 3, 0, 0, 0] (by decide)
    (Or.inr (Or.inl (by decide)))
  ⟨h.1, h.2 1⟩

/-- C7: each catalog tag value is 2 to its declaration index, so the four
declared types take the values 1, 2, 4, 8 in declaration order, each has
exactly one bit set, and the values are pairwise distinct. -/
theorem C7_catalog_powers_of_two :
    (∀ u : msg_type_t, msg_type_value u = 2 ^ msg_type_exponent u) ∧
    msg_type_value .lua_require_module = 1 ∧ msg_type_value .lua_msg = 2 ∧
    msg_type_value .scroll = 4 ∧ msg_type_value .rc_loaded = 8 ∧
    (∀ u : msg_type_t, 1 ≤ msg_type_value u ∧
      msg_type_value u &&& (msg_type_value u - 1) = 0) ∧
    msg_type_values.Nodup := by
  refine ⟨?_, by decide, by decide, by decide, by decide, ?_, by decide⟩
  · intro u
    cases u <;> decide
  · intro u
    cases u <;> exact ⟨by decide, by decide⟩

/-- C8: the ALL-mask MSG_TYPE_ANY is the int value -1, all 32 wire bits
set, so its AND with any valid single-bit tag value is that tag, nonzero,
and a dispatch mask of MSG_TYPE_ANY matches a frame of every valid type. -/
theorem frameMatches_mk (t : Nat) (p : List Nat) (mask : Int) :
    frameMatches ⟨t, p⟩ mask = (t &&& typeWire mask != 0) := rfl

theorem C8_any_mask_matches (u : msg_type_t) (p : List Nat) :
    frameMatches ⟨msg_type_value u, p⟩ MSG_TYPE_ANY = true ∧
    MSG_TYPE_ANY = -1 ∧
    typeWire MSG_TYPE_ANY = 4294967295 ∧
    msg_type_value u &&& typeWire MSG_TYPE_ANY = msg_type_value u := by
  cases u <;> exact ⟨by rw [frameMatches_mk]; decide, rfl, by decide, by decide⟩

/-- C9: closing the stream with buffered partial header or payload bytes
is reported as truncation, a signal distinct from the clean end-of-stream
reported when nothing is pending. -/
theorem C9_truncation_distinct (bytes : List Nat) :
    (onClose (extractAll bytes).rest = CloseResult.cleanEof ↔
      (extractAll bytes).rest = []) ∧
    (onClose (extractAll bytes).rest = CloseResult.truncated ↔
      ¬ (extractAll bytes).rest = []) ∧
    ¬ CloseResult.truncated = CloseResult.cleanEof := by
  unfold onClose
  by_cases h : (extractAll bytes).rest = [] <;> simp [h]

/-- Witness for C9: a complete header declaring 3 payload bytes followed
by a single payload byte is truncated, not clean end of stream. -/
theorem C9_truncation_witness :
    onClose (extractAll [3, 0, 0, 0, 2, 0, 0, 0, 9]).rest = CloseResult.truncated :=
  (C9_truncation_distinct [3, 0, 0, 0, 2, 0, 0, 0, 9]).2.1.mpr (by decide)

/-- C10: the header type field and the interest mask share the int
representation: the header record accepts the multi-bit value 3 and the
sentinel MSG_TYPE_ANY in its type field, and msg_send lays such headers
out on the wire, even though neither value passes single-bit validation:
no type distinction enforces the single-bit wire invariant. -/
theorem C10_no_type_enforcement :
    validTypeB 3 = false ∧
    msg_send ⟨0, 3⟩ [] = [0, 0, 0, 0, 3, 0, 0, 0] ∧
    (msg_header_t.mk 0 MSG_TYPE_ANY).type = -1 ∧
    msg_send ⟨0, MSG_TYPE_ANY⟩ [] = [0, 0, 0, 0, 255, 255, 255, 255] ∧
    validTypeB (typeWire MSG_TYPE_ANY) = false := by
  decide

end LuakitMsg
